import Mathlib

/-!
# Verification of the staged ingestion pipeline and annotation merge engine

Shallow embedding of the four source files of the repository:
`clinvar/factory_clinvar.py`, `gnomad/factory_gnomad.py`,
`gnomad_constraint/factory_gnomad_constraint.py`,
`gnomad_constraint/reader_gnomad_constraint.py`.

Python dictionaries are modelled as ordered association lists
(`Json.obj` / `setKey`), mirroring insertion-order semantics: setting an
existing key overwrites it in place, setting a new key appends it.
Django ORM `get` / `get_or_create` calls are modelled over list-valued
tables: `get` with no match raises `ObjectDoesNotExist` (caught or not
exactly where the source catches it) and a `get` or `get_or_create`
whose filter matches two or more rows raises `MultipleObjectsReturned`;
both surface as `Except DbError`.
-/

set_option linter.unusedVariables false

namespace StageM1

/-- JSON-like values: the opaque structured documents stored in
`metadata` columns and node metadata documents. -/
inductive Json where
  | str (s : String)
  | int (n : Int)
  | arr (elems : List Json)
  | obj (fields : List (String × Json))
deriving Repr

mutual

def decEqJson : (a b : Json) → Decidable (a = b)
  | .str x, .str y =>
      match decEq x y with
      | isTrue h => isTrue (by rw [h])
      | isFalse h => isFalse (by intro hc; cases hc; exact h rfl)
  | .int x, .int y =>
      match decEq x y with
      | isTrue h => isTrue (by rw [h])
      | isFalse h => isFalse (by intro hc; cases hc; exact h rfl)
  | .arr xs, .arr ys =>
      match decEqJsonList xs ys with
      | isTrue h => isTrue (by rw [h])
      | isFalse h => isFalse (by intro hc; cases hc; exact h rfl)
  | .obj xs, .obj ys =>
      match decEqJsonFields xs ys with
      | isTrue h => isTrue (by rw [h])
      | isFalse h => isFalse (by intro hc; cases hc; exact h rfl)
  | .str _, .int _ => isFalse (by intro hc; cases hc)
  | .str _, .arr _ => isFalse (by intro hc; cases hc)
  | .str _, .obj _ => isFalse (by intro hc; cases hc)
  | .int _, .str _ => isFalse (by intro hc; cases hc)
  | .int _, .arr _ => isFalse (by intro hc; cases hc)
  | .int _, .obj _ => isFalse (by intro hc; cases hc)
  | .arr _, .str _ => isFalse (by intro hc; cases hc)
  | .arr _, .int _ => isFalse (by intro hc; cases hc)
  | .arr _, .obj _ => isFalse (by intro hc; cases hc)
  | .obj _, .str _ => isFalse (by intro hc; cases hc)
  | .obj _, .int _ => isFalse (by intro hc; cases hc)
  | .obj _, .arr _ => isFalse (by intro hc; cases hc)

def decEqJsonList : (a b : List Json) → Decidable (a = b)
  | [], [] => isTrue rfl
  | [], _ :: _ => isFalse (by intro hc; cases hc)
  | _ :: _, [] => isFalse (by intro hc; cases hc)
  | x :: xs, y :: ys =>
      match decEqJson x y, decEqJsonList xs ys with
      | isTrue h1, isTrue h2 => isTrue (by rw [h1, h2])
      | isFalse h1, _ => isFalse (by intro hc; cases hc; exact h1 rfl)
      | _, isFalse h2 => isFalse (by intro hc; cases hc; exact h2 rfl)

def decEqJsonFields : (a b : List (String × Json)) → Decidable (a = b)
  | [], [] => isTrue rfl
  | [], _ :: _ => isFalse (by intro hc; cases hc)
  | _ :: _, [] => isFalse (by intro hc; cases hc)
  | (k1, v1) :: xs, (k2, v2) :: ys =>
      match decEq k1 k2, decEqJson v1 v2, decEqJsonFields xs ys with
      | isTrue h0, isTrue h1, isTrue h2 => isTrue (by rw [h0, h1, h2])
      | isFalse h0, _, _ => isFalse (by intro hc; cases hc; exact h0 rfl)
      | _, isFalse h1, _ => isFalse (by intro hc; cases hc; exact h1 rfl)
      | _, _, isFalse h2 => isFalse (by intro hc; cases hc; exact h2 rfl)

end

instance : DecidableEq Json := decEqJson

/-- Python `d[k] = v` on an insertion-ordered dict: overwrite in place if
the key exists, else append at the end. -/
def setKey : List (String × Json) → String → Json → List (String × Json)
  | [], k, v => [(k, v)]
  | (k', v') :: rest, k, v =>
      if k' = k then (k, v) :: rest else (k', v') :: setKey rest k v

/-- Python `d[k]` lookup (first, and with `setKey` only, occurrence). -/
def getKey : List (String × Json) → String → Option Json
  | [], _ => none
  | (k', v') :: rest, k => if k' = k then some v' else getKey rest k

theorem getKey_setKey_self (d : List (String × Json)) (k : String) (v : Json) :
    getKey (setKey d k v) k = some v := by
  induction d with
  | nil => simp [setKey, getKey]
  | cons hd tl ih =>
      rcases hd with ⟨k', v'⟩
      by_cases h : k' = k
      · simp [setKey, getKey, h]
      · simp [setKey, getKey, h, ih]

theorem getKey_setKey_other (d : List (String × Json)) (k k' : String) (v : Json)
    (hne : k' ≠ k) : getKey (setKey d k v) k' = getKey d k' := by
  induction d with
  | nil => simp [setKey, getKey, Ne.symm hne]
  | cons hd tl ih =>
      rcases hd with ⟨k0, v0⟩
      by_cases h : k0 = k
      · subst h
        simp [setKey, getKey, Ne.symm hne]
      · by_cases h2 : k0 = k'
        · subst h2
          simp [setKey, getKey, hne]
        · simp [setKey, getKey, h, h2, ih]

/-! ## Database model

Rows of the Django tables the four factory files touch: `Region`
(assemblies app), `Variant` and `VariantAnnotation` (variants app),
`Gene` (genomes app). Foreign keys are flattened into the identifying
fields of the referenced row. -/

/-- Errors the modelled code paths can raise: the two Django ORM
exceptions plus the Python `KeyError` / `TypeError` a
`metadata["factories"][k] = v` item assignment can raise. -/
inductive DbError where
  | objectDoesNotExist
  | multipleObjectsReturned
  | keyError
  | typeError
deriving DecidableEq, Repr

/-- One `Region` row: `Region(assembly=…, seqid=…, factory=…)`. -/
structure RegionRow where
  assembly : String
  seqid : String
  factory : String
deriving DecidableEq, Repr

/-- The filter used by `Region.objects.get(assembly=self.assembly, seqid=region)`:
it matches on assembly and seqid only, never on the owning factory. -/
def regionMatches (a s : String) (r : RegionRow) : Bool :=
  r.assembly == a && r.seqid == s

/-- `Region.objects.get(assembly=…, seqid=…)`: no match raises
`ObjectDoesNotExist`, two or more matches raise `MultipleObjectsReturned`. -/
def regionGet (a s : String) (regions : List RegionRow) : Except DbError RegionRow :=
  match regions.filter (regionMatches a s) with
  | [] => .error .objectDoesNotExist
  | [r] => .ok r
  | _ => .error .multipleObjectsReturned

/-- One iteration of the loop in `load_regions`: `try: get(...)`
`except ObjectDoesNotExist: Region(...).save()`. Only the does-not-exist
error is caught; `MultipleObjectsReturned` propagates. -/
def loadRegionsStep (a f : String) (regions : List RegionRow) (contig : String) :
    Except DbError (List RegionRow) :=
  match regionGet a contig regions with
  | .ok _ => .ok regions
  | .error .objectDoesNotExist => .ok (regions ++ [⟨a, contig, f⟩])
  | .error e => .error e

/-- `load_regions` of `ClinvarFactory` / `GnomadFactory` (the two bodies are
identical): iterate over the contigs the reader lists for the file and
get-or-create each `Region`. The contig list stands for
`reader.get_contigs(file_path)`, an external collaborator. -/
def load_regions (a f : String) : List String → List RegionRow → Except DbError (List RegionRow)
  | [], regions => .ok regions
  | c :: cs, regions =>
      match loadRegionsStep a f regions c with
      | .ok regions' => load_regions a f cs regions'
      | .error e => .error e

/-- The store-enforced uniqueness invariant on `Region`: at most one row per
(assembly, seqid) pair. -/
def regionKeyUnique (s : List RegionRow) : Prop :=
  List.Pairwise (fun r1 r2 => ¬(r1.assembly = r2.assembly ∧ r1.seqid = r2.seqid)) s

instance (s : List RegionRow) : Decidable (regionKeyUnique s) := by
  unfold regionKeyUnique; infer_instance

theorem regionKeyUnique_filter_len (s : List RegionRow) (hu : regionKeyUnique s)
    (a c : String) : (s.filter (regionMatches a c)).length ≤ 1 := by
  induction s with
  | nil => simp
  | cons r rest ih =>
      rcases hu with _ | ⟨hr, hrest⟩
      by_cases hm : regionMatches a c r
      · have hnil : rest.filter (regionMatches a c) = [] := by
          apply List.filter_eq_nil_iff.mpr
          intro r' hr'
          have hk := hr r' hr'
          simp only [regionMatches, Bool.and_eq_true, beq_iff_eq] at hm ⊢
          intro hc
          exact hk ⟨hm.1.trans hc.1.symm, hm.2.trans hc.2.symm⟩
        simp [hm, hnil]
      · simpa [hm] using ih hrest

theorem mem_singleton_of_le_one {α : Type} (l : List α) (x : α)
    (hx : x ∈ l) (hlen : l.length ≤ 1) : l = [x] := by
  cases l with
  | nil => cases hx
  | cons y tl =>
      cases tl with
      | nil => cases hx with
          | head => rfl
          | tail _ h => cases h
      | cons z tl2 => simp at hlen

theorem filter_singleton_of_unique (s : List RegionRow) (hu : regionKeyUnique s)
    (a c : String) (r : RegionRow) (hm : r ∈ s) (hmatch : regionMatches a c r = true) :
    s.filter (regionMatches a c) = [r] :=
  mem_singleton_of_le_one _ r (List.mem_filter.mpr ⟨hm, hmatch⟩)
    (regionKeyUnique_filter_len s hu a c)

/-- A second pass over contigs that are all already present is the identity:
every `get` succeeds, so no row is created or modified. -/
theorem load_regions_noop (a f : String) (cs : List String) (s : List RegionRow)
    (hu : regionKeyUnique s)
    (hall : ∀ c ∈ cs, ∃ r ∈ s, regionMatches a c r = true) :
    load_regions a f cs s = .ok s := by
  induction cs with
  | nil => rfl
  | cons c cs ih =>
      obtain ⟨r, hr, hrm⟩ := hall c (List.mem_cons_self c cs)
      have hfil := filter_singleton_of_unique s hu a c r hr hrm
      have hstep : loadRegionsStep a f s c = .ok s := by
        simp [loadRegionsStep, regionGet, hfil]
      simp only [load_regions, hstep]
      exact ih (fun c' hc' => hall c' (List.mem_cons_of_mem c hc'))

/-- Full behaviour of one `load_regions` run over a store whose
(assembly, seqid) keys are unique: it succeeds, appends only rows owned by
this factory whose keys were absent, preserves key-uniqueness, and afterwards
every listed contig has a row. -/
theorem load_regions_spec (a f : String) (cs : List String) :
    ∀ s0 : List RegionRow, regionKeyUnique s0 →
    ∃ new, load_regions a f cs s0 = .ok (s0 ++ new) ∧
      (∀ r ∈ new, r.assembly = a ∧ r.factory = f ∧
        s0.filter (regionMatches r.assembly r.seqid) = []) ∧
      regionKeyUnique (s0 ++ new) ∧
      (∀ c ∈ cs, ∃ r ∈ s0 ++ new, regionMatches a c r = true) := by
  induction cs with
  | nil =>
      intro s0 hu
      exact ⟨[], by simp [load_regions], by simp, by simpa using hu, by simp⟩
  | cons c cs ih =>
      intro s0 hu
      cases hfc : s0.filter (regionMatches a c) with
      | nil =>
          -- `get` raises ObjectDoesNotExist: the row ⟨a, c, f⟩ is created.
          have hu' : regionKeyUnique (s0 ++ [⟨a, c, f⟩]) := by
            unfold regionKeyUnique at hu ⊢
            rw [List.pairwise_append]
            refine ⟨hu, List.pairwise_singleton _ _, ?_⟩
            intro r0 hr0 r1 hr1
            have hr1' : r1 = ⟨a, c, f⟩ := by simpa using hr1
            subst hr1'
            intro hkey
            have : regionMatches a c r0 = true := by
              simp [regionMatches, hkey.1, hkey.2]
            have : r0 ∈ s0.filter (regionMatches a c) :=
              List.mem_filter.mpr ⟨hr0, this⟩
            rw [hfc] at this
            cases this
          obtain ⟨new, h1, h2, h3, h4⟩ := ih (s0 ++ [⟨a, c, f⟩]) hu'
          refine ⟨⟨a, c, f⟩ :: new, ?_, ?_, ?_, ?_⟩
          · have hstep : loadRegionsStep a f s0 c = .ok (s0 ++ [⟨a, c, f⟩]) := by
              simp [loadRegionsStep, regionGet, hfc]
            simp only [load_regions, hstep]
            rw [h1]
            simp
          · intro r hr
            rcases List.mem_cons.mp hr with hr | hr
            · subst hr; exact ⟨rfl, rfl, hfc⟩
            · obtain ⟨ha, hf, hfil⟩ := h2 r hr
              refine ⟨ha, hf, ?_⟩
              rw [List.filter_append] at hfil
              exact (List.append_eq_nil.mp hfil).1
          · have := h3
            rwa [List.append_assoc, List.singleton_append] at this
          · intro c' hc'
            rcases List.mem_cons.mp hc' with hc' | hc'
            · subst hc'
              refine ⟨⟨a, c', f⟩, ?_, by simp [regionMatches]⟩
              rw [← List.singleton_append, ← List.append_assoc]
              exact List.mem_append_left _ (List.mem_append_right _ (by simp))
            · obtain ⟨r, hr, hrm⟩ := h4 c' hc'
              rw [List.append_assoc, List.singleton_append] at hr
              exact ⟨r, hr, hrm⟩
      | cons r rest =>
          cases rest with
          | nil =>
              -- `get` succeeds: no write for this contig.
              have hstep : loadRegionsStep a f s0 c = .ok s0 := by
                simp [loadRegionsStep, regionGet, hfc]
              obtain ⟨new, h1, h2, h3, h4⟩ := ih s0 hu
              refine ⟨new, ?_, h2, h3, ?_⟩
              · simp only [load_regions, hstep]; exact h1
              · intro c' hc'
                rcases List.mem_cons.mp hc' with hc' | hc'
                · subst hc'
                  have hrs : r ∈ s0 ∧ regionMatches a c' r = true := by
                    have : r ∈ s0.filter (regionMatches a c') := by
                      rw [hfc]; simp
                    exact ⟨List.mem_of_mem_filter this, List.of_mem_filter this⟩
                  exact ⟨r, List.mem_append_left _ hrs.1, hrs.2⟩
                · exact h4 c' hc'
          | cons r2 rest2 =>
              exact absurd (regionKeyUnique_filter_len s0 hu a c)
                (by rw [hfc]; simp)

/-- C9: Calling `load_regions` twice on the same source and input file yields
exactly the same set of Region rows as calling it once: the second run returns
the store unchanged, the first run only appends rows owned by this factory for
keys that were absent, no duplicate (assembly, seqid) rows are created, and
every pre-existing row (its owning factory included) survives byte-identical
as a prefix of the result. -/
theorem c9_load_regions_idempotent (a f : String) (cs : List String)
    (s0 : List RegionRow) (hu : regionKeyUnique s0) :
    ∃ s1, load_regions a f cs s0 = .ok s1 ∧
      load_regions a f cs s1 = .ok s1 ∧
      (∃ new, s1 = s0 ++ new ∧ ∀ r ∈ new, r.factory = f) ∧
      regionKeyUnique s1 := by
  obtain ⟨new, h1, h2, h3, h4⟩ := load_regions_spec a f cs s0 hu
  exact ⟨s0 ++ new, h1, load_regions_noop a f cs _ h3 h4,
    ⟨new, rfl, fun r hr => (h2 r hr).2.1⟩, h3⟩

/-- Witness for C9 at a concrete input: assembly "GRCh38", factory "clinvar1",
contigs ["1", "2"], with a pre-existing Region for contig "1" owned by another
factory. -/
theorem c9_load_regions_idempotent_witness :
    regionKeyUnique [⟨"GRCh38", "1", "gnomad1"⟩] ∧
    (∃ s1, load_regions "GRCh38" "clinvar1" ["1", "2"]
        [⟨"GRCh38", "1", "gnomad1"⟩] = .ok s1 ∧
      load_regions "GRCh38" "clinvar1" ["1", "2"] s1 = .ok s1 ∧
      (∃ new, s1 = [⟨"GRCh38", "1", "gnomad1"⟩] ++ new ∧
        ∀ r ∈ new, r.factory = "clinvar1") ∧
      regionKeyUnique s1) :=
  ⟨by decide, c9_load_regions_idempotent "GRCh38" "clinvar1" ["1", "2"]
    [⟨"GRCh38", "1", "gnomad1"⟩] (by decide)⟩

/-! ## Variant loading (`load_variants_for_region`)

`ClinvarFactory.load_variants_for_region` and
`GnomadFactory.load_variants_for_region` have identical bodies up to the
names of the pydantic models: fetch the `Region` row (uncaught `get`), then
for each record from the reader, `Variant.objects.get_or_create(region=…,
pos=…, ref=…, alt=…)` followed by `VariantAnnotation.objects.get_or_create(
factory=…, variant=…, metadata=…)`. Note that the second `get_or_create`
passes `metadata` *inside the lookup arguments* (there is no `defaults=`),
so the match key is the full (factory, variant, metadata) triple. -/

/-- One `Variant` row. The `region` foreign key is flattened into the
(assembly, seqid) identity of the `Region` row; the remaining fields are
the `get_or_create` keys `pos`, `ref`, `alt`. -/
structure VariantRow where
  assembly : String
  seqid : String
  pos : Int
  ref : String
  alt : String
deriving DecidableEq, Repr

/-- One `VariantAnnotation` row: `factory`, `variant` and the opaque
`metadata` document. -/
structure VariantAnnotationRow where
  factory : String
  variant : VariantRow
  metadata : List (String × Json)
deriving DecidableEq, Repr

/-- A record as produced by the external VCF reader after the pydantic
model normalised it: the fields `load_variants_for_region` actually uses. -/
structure NormRecord where
  pos : Int
  ref : String
  alt : String
  infos : List (String × Json)
deriving DecidableEq, Repr

/-- The `Variant` and `VariantAnnotation` tables. -/
structure VariantStore where
  variants : List VariantRow
  variantAnnotations : List VariantAnnotationRow
deriving DecidableEq, Repr

/-- Django `objects.get_or_create(...)` where the lookup arguments cover
every field of the row (as they do in both `get_or_create` calls of
`load_variants_for_region`): zero matches create the row, one match
returns it unchanged, several matches raise `MultipleObjectsReturned`. -/
def getOrCreateRow {α : Type} [DecidableEq α] (target : α) (rows : List α) :
    Except DbError (List α) :=
  match rows.filter (fun r => r == target) with
  | [] => .ok (rows ++ [target])
  | [_] => .ok rows
  | _ => .error .multipleObjectsReturned

/-- The `Variant` row built for one record: keyed by the fetched region
object plus the record's pos/ref/alt. -/
def recVariant (reg : RegionRow) (rec : NormRecord) : VariantRow :=
  ⟨reg.assembly, reg.seqid, rec.pos, rec.ref, rec.alt⟩

/-- The `VariantAnnotation` row built for one record: factory, variant and
the record's infos document. -/
def recVARow (f : String) (reg : RegionRow) (rec : NormRecord) : VariantAnnotationRow :=
  ⟨f, recVariant reg rec, rec.infos⟩

/-- The body of the per-record loop of `load_variants_for_region`. -/
def loadVariantRecordStep (f : String) (reg : RegionRow) (s : VariantStore)
    (rec : NormRecord) : Except DbError VariantStore :=
  match getOrCreateRow (recVariant reg rec) s.variants with
  | .error e => .error e
  | .ok variants' =>
      match getOrCreateRow (recVARow f reg rec) s.variantAnnotations with
      | .error e => .error e
      | .ok vas' => .ok ⟨variants', vas'⟩

/-- The per-record loop of `load_variants_for_region`. -/
def loadVariantRecords (f : String) (reg : RegionRow) :
    List NormRecord → VariantStore → Except DbError VariantStore
  | [], s => .ok s
  | rec :: recs, s =>
      match loadVariantRecordStep f reg s rec with
      | .ok s' => loadVariantRecords f reg recs s'
      | .error e => .error e

/-- `load_variants_for_region(region)`: fetch the `Region` row (a bare
`get`, so a missing or duplicated region propagates as an error), then run
the per-record loop over the reader's stream for that contig. -/
def load_variants_for_region (f a regionSeq : String) (records : List NormRecord)
    (regions : List RegionRow) (s : VariantStore) : Except DbError VariantStore :=
  match regionGet a regionSeq regions with
  | .ok regionObj => loadVariantRecords f regionObj records s
  | .error e => .error e

/-- C1 counterexample: two records with the same (pos, ref, alt) but
different infos documents yield **two** `VariantAnnotation` rows for the
same (factory, variant) pair, because the `get_or_create` lookup key
includes `metadata`. The claimed invariant "at most one row per
(factory, variant)" fails on this input. -/
theorem c1_counterexample :
    (load_variants_for_region "clinvar1" "GRCh38" "1"
        [⟨100, "A", "T", [("CLNSIG", .str "Benign")]⟩,
         ⟨100, "A", "T", [("CLNSIG", .str "Pathogenic")]⟩]
        [⟨"GRCh38", "1", "clinvar1"⟩] ⟨[], []⟩).map
      (fun s => (s.variantAnnotations.filter (fun row =>
        row.factory == "clinvar1" &&
        row.variant == (⟨"GRCh38", "1", 100, "A", "T"⟩ : VariantRow))).length) =
    .ok 2 := by rfl

theorem filter_beq_of_nodup {α : Type} [DecidableEq α] (l : List α) (x : α)
    (hn : l.Nodup) (hx : x ∈ l) : l.filter (fun r => r == x) = [x] := by
  induction l with
  | nil => cases hx
  | cons y tl ih =>
      rcases hn with _ | ⟨hy, htl⟩
      by_cases h : y = x
      · subst h
        have : tl.filter (fun r => r == y) = [] := by
          apply List.filter_eq_nil_iff.mpr
          intro r hr
          simp only [beq_iff_eq]
          intro hc
          exact hy r hr hc.symm
        simp [this]
      · have hx' : x ∈ tl := by
          rcases List.mem_cons.mp hx with h' | h'
          · exact absurd h'.symm h
          · exact h'
        simpa [h] using ih htl hx'

theorem filter_beq_of_not_mem {α : Type} [DecidableEq α] (l : List α) (x : α)
    (hx : x ∉ l) : l.filter (fun r => r == x) = [] := by
  apply List.filter_eq_nil_iff.mpr
  intro r hr
  simp only [beq_iff_eq]
  intro hc
  exact hx (hc ▸ hr)

/-- Behaviour of the fully-keyed `get_or_create` over a duplicate-free
table: present ⇒ no write, absent ⇒ append; never an error. -/
theorem getOrCreateRow_spec {α : Type} [DecidableEq α] (target : α) (rows : List α)
    (hn : rows.Nodup) :
    (target ∈ rows ∧ getOrCreateRow target rows = .ok rows) ∨
    (target ∉ rows ∧ getOrCreateRow target rows = .ok (rows ++ [target])) := by
  by_cases h : target ∈ rows
  · exact .inl ⟨h, by simp [getOrCreateRow, filter_beq_of_nodup rows target hn h]⟩
  · exact .inr ⟨h, by simp [getOrCreateRow, filter_beq_of_not_mem rows target h]⟩

/-- One loop iteration over duplicate-free tables: succeeds, extends each
table by at most the one row for this record, preserves freedom from
duplicates, and afterwards both rows for the record are present. -/
theorem loadVariantRecordStep_spec (f : String) (reg : RegionRow)
    (s : VariantStore) (rec : NormRecord)
    (hv : s.variants.Nodup) (hva : s.variantAnnotations.Nodup) :
    ∃ s' : VariantStore, loadVariantRecordStep f reg s rec = .ok s' ∧
      (s'.variants = s.variants ∨ s'.variants = s.variants ++ [recVariant reg rec]) ∧
      (s'.variantAnnotations = s.variantAnnotations ∨
        s'.variantAnnotations = s.variantAnnotations ++ [recVARow f reg rec]) ∧
      s'.variants.Nodup ∧ s'.variantAnnotations.Nodup ∧
      recVariant reg rec ∈ s'.variants ∧ recVARow f reg rec ∈ s'.variantAnnotations := by
  rcases getOrCreateRow_spec (recVariant reg rec) s.variants hv with ⟨hm, hgo⟩ | ⟨hm, hgo⟩ <;>
    rcases getOrCreateRow_spec (recVARow f reg rec) s.variantAnnotations hva with
      ⟨hm2, hgo2⟩ | ⟨hm2, hgo2⟩
  · exact ⟨⟨s.variants, s.variantAnnotations⟩,
      by simp [loadVariantRecordStep, hgo, hgo2],
      .inl rfl, .inl rfl, hv, hva, hm, hm2⟩
  · exact ⟨⟨s.variants, s.variantAnnotations ++ [recVARow f reg rec]⟩,
      by simp [loadVariantRecordStep, hgo, hgo2],
      .inl rfl, .inr rfl, hv, by simp [List.nodup_append, hva, hm2], hm, by simp⟩
  · exact ⟨⟨s.variants ++ [recVariant reg rec], s.variantAnnotations⟩,
      by simp [loadVariantRecordStep, hgo, hgo2],
      .inr rfl, .inl rfl, by simp [List.nodup_append, hv, hm], hva, by simp, hm2⟩
  · exact ⟨⟨s.variants ++ [recVariant reg rec], s.variantAnnotations ++ [recVARow f reg rec]⟩,
      by simp [loadVariantRecordStep, hgo, hgo2],
      .inr rfl, .inr rfl, by simp [List.nodup_append, hv, hm],
      by simp [List.nodup_append, hva, hm2], by simp, by simp⟩

/-- A pass over records whose rows are all already stored is the identity. -/
theorem loadVariantRecords_noop (f : String) (reg : RegionRow)
    (recs : List NormRecord) (s : VariantStore)
    (hv : s.variants.Nodup) (hva : s.variantAnnotations.Nodup)
    (hall : ∀ rec ∈ recs,
      recVariant reg rec ∈ s.variants ∧ recVARow f reg rec ∈ s.variantAnnotations) :
    loadVariantRecords f reg recs s = .ok s := by
  induction recs with
  | nil => rfl
  | cons rec recs ih =>
      obtain ⟨h1, h2⟩ := hall rec (List.mem_cons_self rec recs)
      have hstep : loadVariantRecordStep f reg s rec = .ok s := by
        rcases getOrCreateRow_spec (recVariant reg rec) s.variants hv with
          ⟨_, hgo⟩ | ⟨hnm, _⟩
        · rcases getOrCreateRow_spec (recVARow f reg rec) s.variantAnnotations hva with
            ⟨_, hgo2⟩ | ⟨hnm2, _⟩
          · simp [loadVariantRecordStep, hgo, hgo2]
          · exact absurd h2 hnm2
        · exact absurd h1 hnm
      simp only [loadVariantRecords, hstep]
      exact ih (fun r hr => hall r (List.mem_cons_of_mem rec hr))

/-- Full behaviour of one per-region load over duplicate-free tables:
succeeds, only appends rows, keeps the tables duplicate-free, and stores
both rows for every processed record. -/
theorem loadVariantRecords_spec (f : String) (reg : RegionRow)
    (recs : List NormRecord) :
    ∀ s : VariantStore, s.variants.Nodup → s.variantAnnotations.Nodup →
    ∃ s1 : VariantStore, loadVariantRecords f reg recs s = .ok s1 ∧
      (∃ nv, s1.variants = s.variants ++ nv) ∧
      (∃ na, s1.variantAnnotations = s.variantAnnotations ++ na) ∧
      s1.variants.Nodup ∧ s1.variantAnnotations.Nodup ∧
      (∀ rec ∈ recs,
        recVariant reg rec ∈ s1.variants ∧ recVARow f reg rec ∈ s1.variantAnnotations) := by
  induction recs with
  | nil =>
      intro s hv hva
      exact ⟨s, rfl, ⟨[], by simp⟩, ⟨[], by simp⟩, hv, hva, by simp⟩
  | cons rec recs ih =>
      intro s hv hva
      obtain ⟨s', hstep, hvar, hvaa, hv', hva', hmem1, hmem2⟩ :=
        loadVariantRecordStep_spec f reg s rec hv hva
      obtain ⟨s1, hrun, ⟨nv, hnv⟩, ⟨na, hna⟩, hv1, hva1, hall⟩ := ih s' hv' hva'
      refine ⟨s1, by simp only [loadVariantRecords, hstep]; exact hrun, ?_, ?_, hv1, hva1, ?_⟩
      · rcases hvar with h | h
        · exact ⟨nv, by rw [hnv, h]⟩
        · exact ⟨recVariant reg rec :: nv, by rw [hnv, h]; simp⟩
      · rcases hvaa with h | h
        · exact ⟨na, by rw [hna, h]⟩
        · exact ⟨recVARow f reg rec :: na, by rw [hna, h]; simp⟩
      · intro r hr
        rcases List.mem_cons.mp hr with hr | hr
        · subst hr
          constructor
          · rw [hnv]; exact List.mem_append_left _ hmem1
          · rw [hna]; exact List.mem_append_left _ hmem2
        · exact hall r hr

/-- C1 (amended): over duplicate-free `Variant` and `VariantAnnotation`
tables and an existing region row, `load_variants_for_region` succeeds,
leaves every pre-existing row untouched (the old tables are verbatim
prefixes of the new ones), keeps both tables free of duplicate rows — i.e.
at most one `VariantAnnotation` row per (factory, variant, **metadata**)
triple, the actual `get_or_create` key — and re-running the same region
load over the same input returns the store byte-identical. -/
theorem c1_load_region_idempotent (f a regionSeq : String)
    (records : List NormRecord) (regions : List RegionRow) (s0 : VariantStore)
    (hreg : ∃ r, regionGet a regionSeq regions = .ok r)
    (hv : s0.variants.Nodup) (hva : s0.variantAnnotations.Nodup) :
    ∃ s1 : VariantStore, load_variants_for_region f a regionSeq records regions s0 = .ok s1 ∧
      (∃ nv, s1.variants = s0.variants ++ nv) ∧
      (∃ na, s1.variantAnnotations = s0.variantAnnotations ++ na) ∧
      s1.variants.Nodup ∧ s1.variantAnnotations.Nodup ∧
      load_variants_for_region f a regionSeq records regions s1 = .ok s1 := by
  obtain ⟨reg, hregeq⟩ := hreg
  obtain ⟨s1, hrun, hext1, hext2, hv1, hva1, hall⟩ :=
    loadVariantRecords_spec f reg records s0 hv hva
  refine ⟨s1, ?_, hext1, hext2, hv1, hva1, ?_⟩
  · simp only [load_variants_for_region, hregeq]; exact hrun
  · simp only [load_variants_for_region, hregeq]
    exact loadVariantRecords_noop f reg records s1 hv1 hva1 hall

/-- Witness for C1 (amended) at a concrete input: one record loaded into an
empty store over a single existing region. -/
theorem c1_load_region_idempotent_witness :
    (∃ r, regionGet "GRCh38" "1" [⟨"GRCh38", "1", "clinvar1"⟩] = .ok r) ∧
    ([] : List VariantRow).Nodup ∧ ([] : List VariantAnnotationRow).Nodup ∧
    (∃ s1 : VariantStore, load_variants_for_region "clinvar1" "GRCh38" "1"
        [⟨100, "A", "T", [("CLNSIG", .str "Benign")]⟩]
        [⟨"GRCh38", "1", "clinvar1"⟩] ⟨[], []⟩ = .ok s1 ∧
      (∃ nv, s1.variants = ([] : List VariantRow) ++ nv) ∧
      (∃ na, s1.variantAnnotations = ([] : List VariantAnnotationRow) ++ na) ∧
      s1.variants.Nodup ∧ s1.variantAnnotations.Nodup ∧
      load_variants_for_region "clinvar1" "GRCh38" "1"
        [⟨100, "A", "T", [("CLNSIG", .str "Benign")]⟩]
        [⟨"GRCh38", "1", "clinvar1"⟩] s1 = .ok s1) :=
  ⟨⟨⟨"GRCh38", "1", "clinvar1"⟩, by rfl⟩, List.nodup_nil, List.nodup_nil,
    c1_load_region_idempotent "clinvar1" "GRCh38" "1"
      [⟨100, "A", "T", [("CLNSIG", .str "Benign")]⟩]
      [⟨"GRCh38", "1", "clinvar1"⟩] ⟨[], []⟩
      ⟨⟨"GRCh38", "1", "clinvar1"⟩, by rfl⟩ List.nodup_nil List.nodup_nil⟩

/-! ## Node metadata: `init_metadata` and `merge_metadata`

`NodeVariantAnnotation` rows carry a `variant` reference, a `metadata`
document and a `building` state; `init_metadata` and `merge_metadata`
write the document and set `building = BUILDING_SUCCESS`. -/

/-- `NodeVariantAnnotation.building` states. -/
inductive BuildState where
  | pending
  | success
  | failed
deriving DecidableEq, Repr

/-- One `NodeVariantAnnotation` object as the factory code sees it. -/
structure NodeVA where
  variant : VariantRow
  metadata : List (String × Json)
  building : BuildState
deriving DecidableEq, Repr

/-- The filter of `VariantAnnotation.objects.get(factory=self, variant=…)`:
factory and variant only — `metadata` takes no part in this lookup. -/
def vaMatches (f : String) (v : VariantRow) (row : VariantAnnotationRow) : Bool :=
  row.factory == f && row.variant == v

/-- `VariantAnnotation.objects.get(factory=…, variant=…)`. -/
def variantAnnotationGet (f : String) (v : VariantRow)
    (vas : List VariantAnnotationRow) : Except DbError VariantAnnotationRow :=
  match vas.filter (vaMatches f v) with
  | [] => .error .objectDoesNotExist
  | [r] => .ok r
  | _ => .error .multipleObjectsReturned

/-- The guarded lookup both metadata entry points perform:
`try: … .get(factory=self, variant=…).metadata except ObjectDoesNotExist: {}`.
Only `ObjectDoesNotExist` is caught; `MultipleObjectsReturned` propagates. -/
def variantAnnotationLookup (f : String) (v : VariantRow)
    (vas : List VariantAnnotationRow) : Except DbError (List (String × Json)) :=
  match variantAnnotationGet f v vas with
  | .ok row => .ok row.metadata
  | .error .objectDoesNotExist => .ok []
  | .error e => .error e

/-- The document `init_metadata` assigns to a node:
`{"factories": {str(self.pk): {"variant_annotations": [payload]}}}`. -/
def initDoc (pk : String) (payload : List (String × Json)) : List (String × Json) :=
  [("factories", .obj [(pk, .obj [("variant_annotations", .arr [.obj payload])])])]

/-- `init_metadata(node_variant_annotations)` of `ClinvarFactory` /
`GnomadFactory` (identical bodies): for each node, look up this factory's
annotation row for the node's variant (absent ⇒ `{}`), replace the node's
document with `initDoc` and mark the build succeeded. Nodes processed
before an uncaught ORM error keep their new state; the erroring node and
its successors are returned untouched together with the error. -/
def init_metadata (pk : String) (vas : List VariantAnnotationRow) :
    List NodeVA → List NodeVA × Option DbError
  | [] => ([], none)
  | node :: nodes =>
      match variantAnnotationLookup pk node.variant vas with
      | .error e => (node :: nodes, some e)
      | .ok payload =>
          let node' : NodeVA :=
            { node with metadata := initDoc pk payload, building := .success }
          let rest := init_metadata pk vas nodes
          (node' :: rest.1, rest.2)

/-- The uniqueness invariant the spec states for `VariantAnnotation`: at
most one row per (factory, variant) pair. (By `c1_counterexample` the
loader does not actually enforce it; the metadata entry points rely on it
for their `get` calls not to raise.) -/
def vaKeyUnique (vas : List VariantAnnotationRow) : Prop :=
  List.Pairwise (fun r1 r2 => ¬(r1.factory = r2.factory ∧ r1.variant = r2.variant)) vas

instance (vas : List VariantAnnotationRow) : Decidable (vaKeyUnique vas) := by
  unfold vaKeyUnique; infer_instance

theorem vaKeyUnique_filter_len (vas : List VariantAnnotationRow)
    (hu : vaKeyUnique vas) (f : String) (v : VariantRow) :
    (vas.filter (vaMatches f v)).length ≤ 1 := by
  induction vas with
  | nil => simp
  | cons r rest ih =>
      rcases hu with _ | ⟨hr, hrest⟩
      by_cases hm : vaMatches f v r
      · have hnil : rest.filter (vaMatches f v) = [] := by
          apply List.filter_eq_nil_iff.mpr
          intro r' hr'
          have hk := hr r' hr'
          simp only [vaMatches, Bool.and_eq_true, beq_iff_eq] at hm ⊢
          intro hc
          exact hk ⟨hm.1.trans hc.1.symm, hm.2.trans hc.2.symm⟩
        simp [hm, hnil]
      · simpa [hm] using ih hrest

theorem find?_eq_of_filter_singleton {α : Type} (p : α → Bool) (l : List α) (r : α)
    (h : l.filter p = [r]) : l.find? p = some r := by
  induction l with
  | nil => simp at h
  | cons x tl ih =>
      by_cases hp : p x
      · rw [List.filter_cons_of_pos hp] at h
        injection h with h1 h2
        subst h1
        simp [List.find?, hp]
      · rw [List.filter_cons_of_neg hp] at h
        simp only [List.find?, hp]
        exact ih h

theorem find?_eq_none_of_filter_nil {α : Type} (p : α → Bool) (l : List α)
    (h : l.filter p = []) : l.find? p = none := by
  apply List.find?_eq_none.mpr
  intro x hx hp
  have : x ∈ l.filter p := List.mem_filter.mpr ⟨hx, hp⟩
  rw [h] at this
  cases this

/-- Under the per-(factory, variant) uniqueness invariant, the guarded
lookup never errors and returns the first (hence only) matching row's
metadata, or the empty document. -/
theorem variantAnnotationLookup_ok (f : String) (v : VariantRow)
    (vas : List VariantAnnotationRow) (hu : vaKeyUnique vas) :
    variantAnnotationLookup f v vas =
      .ok (((vas.find? (vaMatches f v)).map VariantAnnotationRow.metadata).getD []) := by
  cases hfc : vas.filter (vaMatches f v) with
  | nil =>
      rw [variantAnnotationLookup, variantAnnotationGet, hfc,
        find?_eq_none_of_filter_nil _ _ hfc]
      rfl
  | cons r rest =>
      cases rest with
      | nil =>
          rw [variantAnnotationLookup, variantAnnotationGet, hfc,
            find?_eq_of_filter_singleton _ _ _ hfc]
          rfl
      | cons r2 rest2 =>
          exact absurd (vaKeyUnique_filter_len vas hu f v) (by rw [hfc]; simp)

/-- C6: under the per-(factory, variant) uniqueness invariant on the
annotation store, `init_metadata` rewrites every node of the list: its
document becomes exactly
`{"factories": {pk: {"variant_annotations": [payload]}}}` — `payload`
being the stored row's metadata, or the empty document when no row
exists — whatever the node's previous document was, its build state
becomes succeeded, and no error is raised. -/
theorem c6_init_metadata_sets_doc (pk : String) (vas : List VariantAnnotationRow)
    (nodes : List NodeVA) (hu : vaKeyUnique vas) :
    init_metadata pk vas nodes =
      (nodes.map (fun node =>
        { node with
          metadata := initDoc pk
            (((vas.find? (vaMatches pk node.variant)).map
              VariantAnnotationRow.metadata).getD []),
          building := .success }), none) := by
  induction nodes with
  | nil => rfl
  | cons node nodes ih =>
      rw [init_metadata, variantAnnotationLookup_ok pk node.variant vas hu, ih]
      rfl

/-- Witness for C6 at a concrete input: one stored row, two nodes — one
whose variant has a row, one without. -/
theorem c6_init_metadata_sets_doc_witness :
    vaKeyUnique [⟨"clinvar1", ⟨"GRCh38", "1", 100, "A", "T"⟩,
      [("CLNSIG", .str "Benign")]⟩] ∧
    init_metadata "clinvar1"
        [⟨"clinvar1", ⟨"GRCh38", "1", 100, "A", "T"⟩, [("CLNSIG", .str "Benign")]⟩]
        [⟨⟨"GRCh38", "1", 100, "A", "T"⟩, [("old", .int 1)], .pending⟩,
         ⟨⟨"GRCh38", "1", 200, "C", "G"⟩, [], .pending⟩] =
      ([⟨⟨"GRCh38", "1", 100, "A", "T"⟩,
          initDoc "clinvar1" [("CLNSIG", .str "Benign")], .success⟩,
        ⟨⟨"GRCh38", "1", 200, "C", "G"⟩, initDoc "clinvar1" [], .success⟩], none) := by
  constructor
  · decide
  · rw [c6_init_metadata_sets_doc _ _ _ (by decide)]
    rfl

/-- The contribution a per-variant annotation factory writes under its
`factories` key: `{"variant_annotations": [payload]}`. -/
def clinvarContribution (payload : List (String × Json)) : Json :=
  .obj [("variant_annotations", .arr [.obj payload])]

/-- The in-place item assignment `metadata["factories"][pk] = contribution`:
`metadata["factories"]` raises `KeyError` when the key is absent, item
assignment on a non-dict raises `TypeError`; otherwise the nested dict
gains or overwrites the key `pk`. -/
def mergeDoc (pk : String) (contribution : Json) (doc : List (String × Json)) :
    Except DbError (List (String × Json)) :=
  match getKey doc "factories" with
  | some (.obj fs) => .ok (setKey doc "factories" (.obj (setKey fs pk contribution)))
  | some _ => .error .typeError
  | none => .error .keyError

/-- `merge_metadata(node_variant_annotation, parent_node_variant_annotation)`
of `ClinvarFactory` / `GnomadFactory` (identical bodies). The Python body
binds `metadata = parent_node_variant_annotation.metadata` — the **same
dict object**, no copy — then mutates it in place and assigns it to the
node. The returned pair is (node, parent) as the two objects stand in
memory after the call: both reference the mutated document. Only the node
is saved; the parent's persisted row is not written. -/
def merge_metadata (pk : String) (vas : List VariantAnnotationRow)
    (node parent : NodeVA) : Except DbError (NodeVA × NodeVA) :=
  match variantAnnotationLookup pk node.variant vas with
  | .error e => .error e
  | .ok payload =>
      match mergeDoc pk (clinvarContribution payload) parent.metadata with
      | .error e => .error e
      | .ok merged =>
          .ok ({ node with metadata := merged, building := .success },
               { parent with metadata := merged })

/-- C2 counterexample: because `merge_metadata` never copies the parent's
document, the item assignment mutates the parent's own in-memory document:
after merging into a parent whose document was `{"factories": {}}`, the
parent's document carries the new factory key — it is **not** left
unchanged as the claim states. -/
theorem c2_counterexample :
    (merge_metadata "clinvar1" []
        ⟨⟨"GRCh38", "1", 100, "A", "T"⟩, [], .pending⟩
        ⟨⟨"GRCh38", "1", 100, "A", "T"⟩, [("factories", .obj [])], .pending⟩).map
      (fun p => p.2.metadata) =
    .ok [("factories", .obj [("clinvar1", clinvarContribution [])])] ∧
    ([("factories", Json.obj [("clinvar1", clinvarContribution [])])] :
        List (String × Json)) ≠ [("factories", .obj [])] := by
  exact ⟨by rfl, by decide⟩

/-- C2 (amended): when the parent's document has a `factories` dict and the
annotation store satisfies the per-(factory, variant) uniqueness invariant,
`merge_metadata` gives the node a document equal to the parent's input
document with only the `factories[pk]` key overwritten — every other key
under `factories` and every top-level key outside it is unchanged, and the
node's build state becomes succeeded — but the parent's own in-memory
document is mutated to that same merged document (node and parent share
it), rather than being left untouched. -/
theorem c2_merge_metadata_frame (pk : String) (vas : List VariantAnnotationRow)
    (node parent : NodeVA) (fs : List (String × Json))
    (hf : getKey parent.metadata "factories" = some (.obj fs))
    (hu : vaKeyUnique vas) :
    ∃ node' parent' : NodeVA,
      merge_metadata pk vas node parent = .ok (node', parent') ∧
      node'.variant = node.variant ∧ node'.building = .success ∧
      parent'.variant = parent.variant ∧ parent'.building = parent.building ∧
      getKey node'.metadata "factories" =
        some (.obj (setKey fs pk (clinvarContribution
          (((vas.find? (vaMatches pk node.variant)).map
            VariantAnnotationRow.metadata).getD [])))) ∧
      getKey (setKey fs pk (clinvarContribution
          (((vas.find? (vaMatches pk node.variant)).map
            VariantAnnotationRow.metadata).getD []))) pk =
        some (clinvarContribution
          (((vas.find? (vaMatches pk node.variant)).map
            VariantAnnotationRow.metadata).getD [])) ∧
      (∀ k, k ≠ pk →
        getKey (setKey fs pk (clinvarContribution
          (((vas.find? (vaMatches pk node.variant)).map
            VariantAnnotationRow.metadata).getD []))) k = getKey fs k) ∧
      (∀ k, k ≠ "factories" → getKey node'.metadata k = getKey parent.metadata k) ∧
      parent'.metadata = node'.metadata := by
  have hlook := variantAnnotationLookup_ok pk node.variant vas hu
  refine ⟨{ node with
      metadata := setKey parent.metadata "factories" (.obj (setKey fs pk
        (clinvarContribution (((vas.find? (vaMatches pk node.variant)).map
          VariantAnnotationRow.metadata).getD [])))),
      building := .success },
    { parent with
      metadata := setKey parent.metadata "factories" (.obj (setKey fs pk
        (clinvarContribution (((vas.find? (vaMatches pk node.variant)).map
          VariantAnnotationRow.metadata).getD [])))) },
    ?_, rfl, rfl, rfl, rfl, ?_, ?_, ?_, ?_, rfl⟩
  · rw [merge_metadata, hlook]
    unfold mergeDoc
    rw [hf]
  · exact getKey_setKey_self _ _ _
  · exact getKey_setKey_self _ _ _
  · intro k hk
    exact getKey_setKey_other _ _ _ _ hk
  · intro k hk
    exact getKey_setKey_other _ _ _ _ hk

/-- Witness for C2 (amended) at a concrete input: a parent carrying a
sibling factory's contribution and one stored annotation row. -/
theorem c2_merge_metadata_frame_witness :
    getKey [("factories", Json.obj [("gnomad1", .str "sib")]), ("extra", .int 7)]
      "factories" = some (.obj [("gnomad1", .str "sib")]) ∧
    vaKeyUnique [⟨"clinvar1", ⟨"GRCh38", "1", 100, "A", "T"⟩,
      [("CLNSIG", .str "Benign")]⟩] ∧
    (∃ node' parent' : NodeVA,
      merge_metadata "clinvar1"
        [⟨"clinvar1", ⟨"GRCh38", "1", 100, "A", "T"⟩, [("CLNSIG", .str "Benign")]⟩]
        ⟨⟨"GRCh38", "1", 100, "A", "T"⟩, [], .pending⟩
        ⟨⟨"GRCh38", "1", 100, "A", "T"⟩,
          [("factories", .obj [("gnomad1", .str "sib")]), ("extra", .int 7)],
          .pending⟩ = .ok (node', parent') ∧
      node'.variant = ⟨"GRCh38", "1", 100, "A", "T"⟩ ∧ node'.building = .success ∧
      parent'.variant = ⟨"GRCh38", "1", 100, "A", "T"⟩ ∧ parent'.building = .pending ∧
      getKey node'.metadata "factories" =
        some (.obj (setKey [("gnomad1", .str "sib")] "clinvar1"
          (clinvarContribution [("CLNSIG", .str "Benign")]))) ∧
      getKey (setKey [("gnomad1", .str "sib")] "clinvar1"
          (clinvarContribution [("CLNSIG", .str "Benign")])) "clinvar1" =
        some (clinvarContribution [("CLNSIG", .str "Benign")]) ∧
      (∀ k, k ≠ "clinvar1" →
        getKey (setKey [("gnomad1", .str "sib")] "clinvar1"
          (clinvarContribution [("CLNSIG", .str "Benign")])) k =
        getKey [("gnomad1", .str "sib")] k) ∧
      (∀ k, k ≠ "factories" → getKey node'.metadata k =
        getKey [("factories", Json.obj [("gnomad1", .str "sib")]), ("extra", .int 7)] k) ∧
      parent'.metadata = node'.metadata) := by
  refine ⟨by rfl, by decide, ?_⟩
  have h := c2_merge_metadata_frame "clinvar1"
    [⟨"clinvar1", ⟨"GRCh38", "1", 100, "A", "T"⟩, [("CLNSIG", .str "Benign")]⟩]
    ⟨⟨"GRCh38", "1", 100, "A", "T"⟩, [], .pending⟩
    ⟨⟨"GRCh38", "1", 100, "A", "T"⟩,
      [("factories", .obj [("gnomad1", .str "sib")]), ("extra", .int 7)], .pending⟩
    [("gnomad1", .str "sib")] (by rfl) (by decide)
  simpa using h

/-! ## Gene-constraint factory (`factory_gnomad_constraint.py`)

`Gene` rows carry the factory, the model fields and a metadata document;
the range queries of `init_metadata` / `merge_metadata` are JSON-path
filters `metadata__chromosome__in`, `metadata__start_position__lte`,
`metadata__end_position__gte` into that document, so the three filtered
fields are modelled as typed fields of the document. -/

/-- The attribute document stored as `Gene.metadata`
(`gene.attributes.dict()`): the three fields the range query filters on,
plus the remaining attribute fields, opaque. -/
structure GeneMeta where
  chromosome : String
  start_position : Int
  end_position : Int
  rest : List (String × Json)
deriving DecidableEq, Repr

/-- One `Gene` row as `load_genes_by_batch` creates it. -/
structure GeneRow where
  factory : String
  name : String
  symbol : String
  gene_type : String
  metadata : GeneMeta
deriving DecidableEq, Repr

/-- What the constraint factory's metadata entry points read from the
node's variant: `variant.region.aliases` (the contig names the region is
known by, a field of the `Region` model), `variant.pos` and `variant.ref`. -/
structure ConstraintQueryVariant where
  regionAliases : List String
  pos : Int
  ref : String
deriving DecidableEq, Repr

/-- The Django filter of the constraint factory's `init_metadata` /
`merge_metadata`: `Gene.objects.filter(factory=self,
metadata__chromosome__in=variant.region.aliases,
metadata__start_position__lte=variant.pos + len(variant.ref),
metadata__end_position__gte=variant.pos)`. -/
def geneOverlapFilter (f : String) (v : ConstraintQueryVariant) (g : GeneRow) : Bool :=
  g.factory == f &&
  v.regionAliases.contains g.metadata.chromosome &&
  decide (g.metadata.start_position ≤ v.pos + (v.ref.length : Int)) &&
  decide (v.pos ≤ g.metadata.end_position)

/-- The contribution list both constraint metadata entry points build:
`[gene.metadata for gene in Gene.objects.filter(...)]`. -/
def constraint_gene_query (f : String) (v : ConstraintQueryVariant)
    (genes : List GeneRow) : List GeneMeta :=
  (genes.filter (geneOverlapFilter f v)).map GeneRow.metadata

/-- `Gene.metadata` rendered as the JSON document it is in the store. -/
def GeneMeta.toJson (m : GeneMeta) : Json :=
  .obj ([("chromosome", .str m.chromosome),
    ("start_position", .int m.start_position),
    ("end_position", .int m.end_position)] ++ m.rest)

/-- The contribution the constraint factory writes under its `factories`
key: `{"genes": [<matching gene metadata>]}`. -/
def constraintContribution (f : String) (v : ConstraintQueryVariant)
    (genes : List GeneRow) : Json :=
  .obj [("genes", .arr ((constraint_gene_query f v genes).map GeneMeta.toJson))]

/-- The gene row [100, 200] on contig "1" from the spec's overlap-join
test case. -/
def demoConstraintGene : GeneRow :=
  ⟨"gc1", "GENE1", "GENE1", "protein_coding", ⟨"1", 100, 200, []⟩⟩

/-- C4: the gene-constraint contribution list contains exactly the
metadata of this factory's Gene rows whose chromosome is one of the
variant's region aliases and whose span satisfies
`start_position ≤ pos + len(ref)` and `end_position ≥ pos`, both
inclusive; in particular the gene spanning [100, 200] on contig "1" is
returned for a variant at pos 150 with ref "A" on a region aliased "1",
and not for a variant at pos 250. -/
theorem c4_constraint_overlap_query :
    (∀ (f : String) (v : ConstraintQueryVariant) (genes : List GeneRow)
        (m : GeneMeta),
      m ∈ constraint_gene_query f v genes ↔
        ∃ g ∈ genes, g.metadata = m ∧ g.factory = f ∧
          g.metadata.chromosome ∈ v.regionAliases ∧
          g.metadata.start_position ≤ v.pos + (v.ref.length : Int) ∧
          v.pos ≤ g.metadata.end_position) ∧
    demoConstraintGene.metadata ∈
      constraint_gene_query "gc1" ⟨["1"], 150, "A"⟩ [demoConstraintGene] ∧
    demoConstraintGene.metadata ∉
      constraint_gene_query "gc1" ⟨["1"], 250, "A"⟩ [demoConstraintGene] := by
  refine ⟨?_, by decide, by decide⟩
  intro f v genes m
  constructor
  · intro hm
    obtain ⟨g, hg, hgm⟩ := List.mem_map.mp hm
    have hgin := List.mem_of_mem_filter hg
    have hflt := List.of_mem_filter hg
    simp only [geneOverlapFilter, Bool.and_eq_true, beq_iff_eq,
      decide_eq_true_eq] at hflt
    refine ⟨g, hgin, hgm, hflt.1.1.1, ?_, hflt.1.2, hflt.2⟩
    simpa using hflt.1.1.2
  · rintro ⟨g, hg, hgm, hf, hchr, hs, he⟩
    apply List.mem_map.mpr
    refine ⟨g, List.mem_filter.mpr ⟨hg, ?_⟩, hgm⟩
    simp only [geneOverlapFilter, Bool.and_eq_true, beq_iff_eq,
      decide_eq_true_eq]
    exact ⟨⟨⟨hf, by simpa using hchr⟩, hs⟩, he⟩

/-- Witness for C4 at a concrete input: the general characterization
instantiated on the spec's test gene, re-deriving the positive membership. -/
theorem c4_constraint_overlap_query_witness :
    demoConstraintGene.metadata ∈
      constraint_gene_query "gc1" ⟨["1", "chr1"], 150, "A"⟩ [demoConstraintGene] :=
  (c4_constraint_overlap_query.1 "gc1" ⟨["1", "chr1"], 150, "A"⟩
      [demoConstraintGene] demoConstraintGene.metadata).mpr
    ⟨demoConstraintGene, by decide, rfl, rfl, by decide, by decide, by decide⟩

/-! ### Batch gene loading (`load_genes` / `load_genes_by_batch`) -/

/-- One normalised record of the constraint TSV
(`GnomadConstraintGeneModel`): the fields `load_genes_by_batch` reads,
plus the `aliases` the reader builds. -/
structure GeneModel where
  symbol : String
  name : String
  gene_type : String
  aliases : List String
  attributes : GeneMeta
deriving DecidableEq, Repr

/-- The `Gene` row `load_genes_by_batch` constructs for one model:
`Gene(factory=self, name=…, symbol=…, gene_type=…,
metadata=gene.attributes.dict())`. -/
def geneRowOf (f : String) (g : GeneModel) : GeneRow :=
  ⟨f, g.name, g.symbol, g.gene_type, g.attributes⟩

/-- `load_genes_by_batch(genes=batch)`: one `bulk_create` appending the
whole batch as a group. -/
def load_genes_by_batch (f : String) (genes : List GeneModel)
    (store : List GeneRow) : List GeneRow :=
  store ++ genes.map (geneRowOf f)

/-- The unbounded `while True` loop of `load_genes`, with explicit fuel:
each iteration pulls `list(islice(genes, batch_size))` from the remaining
lazy stream, breaks on an empty batch, else bulk-inserts the batch and
continues. `none` means the fuel ran out before the loop broke. -/
def loadGenesLoop (f : String) :
    Nat → Nat → List GeneModel → List GeneRow → Option (List GeneRow)
  | 0, _, _, _ => none
  | fuel + 1, batchSize, stream, store =>
      let batch := stream.take batchSize
      if batch.isEmpty then some store
      else loadGenesLoop f fuel batchSize (stream.drop batchSize)
        (load_genes_by_batch f batch store)

/-- `load_genes(batch_size)`: first `self.genomes_genes.all().delete()` —
every `Gene` row owned by this factory is removed — then the batch loop
over the stream `get_genes(...)` yields. The fuel `stream.length + 1` is
an upper bound on the iterations of the source's unbounded loop
(`c10_load_genes_terminates` shows it suffices whenever `batch_size ≥ 1`). -/
def load_genes (f : String) (batchSize : Nat) (stream : List GeneModel)
    (store : List GeneRow) : Option (List GeneRow) :=
  loadGenesLoop f (stream.length + 1) batchSize stream
    (store.filter (fun g => g.factory != f))

theorem loadGenesLoop_terminates (f : String) (bs : Nat) (hbs : 1 ≤ bs) :
    ∀ (fuel : Nat) (stream : List GeneModel), stream.length < fuel →
    ∀ store, ∃ result, loadGenesLoop f fuel bs stream store = some result := by
  intro fuel
  induction fuel with
  | zero => intro stream h; omega
  | succ n ih =>
      intro stream h store
      by_cases he : (stream.take bs).isEmpty
      · exact ⟨store, by simp only [loadGenesLoop, he, if_pos]⟩
      · have hne : stream ≠ [] := by
          intro hnil; subst hnil; simp at he
        have hpos : 1 ≤ stream.length := List.length_pos.mpr hne
        have hlen : (stream.drop bs).length < n := by
          rw [List.length_drop]
          omega
        obtain ⟨r, hr⟩ := ih (stream.drop bs) hlen (load_genes_by_batch f (stream.take bs) store)
        exact ⟨r, by simp only [loadGenesLoop, he, if_neg, Bool.false_eq_true,
          not_false_eq_true]; exact hr⟩

/-- C10: for every finite normalised-record stream and every
`batch_size ≥ 1`, the unbounded loop of `load_genes` exits on the first
empty batch after at most `stream.length + 1` iterations, so `load_genes`
terminates with a result. -/
theorem c10_load_genes_terminates (f : String) (bs : Nat) (hbs : 1 ≤ bs)
    (stream : List GeneModel) (store : List GeneRow) :
    ∃ result, loadGenesLoop f (stream.length + 1) bs stream
        (store.filter (fun g => g.factory != f)) = some result ∧
      load_genes f bs stream store = some result := by
  obtain ⟨r, hr⟩ := loadGenesLoop_terminates f bs hbs (stream.length + 1) stream
    (by omega) (store.filter (fun g => g.factory != f))
  exact ⟨r, hr, hr⟩

/-- Witness for C10 at a concrete input: batch size 2, a three-record
stream, a store holding rows of this factory and another. -/
theorem c10_load_genes_terminates_witness :
    1 ≤ 2 ∧
    ∃ result, loadGenesLoop "gc1" (3 + 1) 2
        [⟨"A", "A", "t", [], ⟨"1", 1, 2, []⟩⟩,
         ⟨"B", "B", "t", [], ⟨"1", 3, 4, []⟩⟩,
         ⟨"C", "C", "t", [], ⟨"2", 5, 6, []⟩⟩]
        (([demoConstraintGene,
           ⟨"other", "X", "X", "t", ⟨"3", 7, 8, []⟩⟩] :
          List GeneRow).filter (fun g => g.factory != "gc1")) = some result ∧
      load_genes "gc1" 2
        [⟨"A", "A", "t", [], ⟨"1", 1, 2, []⟩⟩,
         ⟨"B", "B", "t", [], ⟨"1", 3, 4, []⟩⟩,
         ⟨"C", "C", "t", [], ⟨"2", 5, 6, []⟩⟩]
        [demoConstraintGene, ⟨"other", "X", "X", "t", ⟨"3", 7, 8, []⟩⟩] =
        some result :=
  ⟨by decide, c10_load_genes_terminates "gc1" 2 (by decide)
    [⟨"A", "A", "t", [], ⟨"1", 1, 2, []⟩⟩,
     ⟨"B", "B", "t", [], ⟨"1", 3, 4, []⟩⟩,
     ⟨"C", "C", "t", [], ⟨"2", 5, 6, []⟩⟩]
    [demoConstraintGene, ⟨"other", "X", "X", "t", ⟨"3", 7, 8, []⟩⟩]⟩

/-- C5 counterexample: with `batch_size = 0`, `list(islice(genes, 0))` is
empty at once, so the loop breaks before inserting anything — the delete
has already run, and the stream's (valid, non-empty) records are **not**
inserted, against the claim's "for every batch_size". -/
theorem c5_counterexample :
    load_genes "gc1" 0 [⟨"A", "A", "t", [], ⟨"1", 1, 2, []⟩⟩] [] = some [] ∧
    ([] : List GeneRow) ≠
      [geneRowOf "gc1" ⟨"A", "A", "t", [], ⟨"1", 1, 2, []⟩⟩] := by
  exact ⟨by rfl, by decide⟩

theorem foldl_load_genes_by_batch (f : String) (batches : List (List GeneModel)) :
    ∀ base : List GeneRow,
      batches.foldl (fun acc b => load_genes_by_batch f b acc) base =
        base ++ batches.flatten.map (geneRowOf f) := by
  induction batches with
  | nil => intro base; simp
  | cons b batches ih =>
      intro base
      rw [List.foldl_cons, ih, load_genes_by_batch]
      simp

theorem loadGenesLoop_batches (f : String) (bs : Nat) (hbs : 1 ≤ bs) :
    ∀ (fuel : Nat) (stream : List GeneModel), stream.length < fuel →
    ∀ store, ∃ batches : List (List GeneModel),
      batches.flatten = stream ∧
      (∀ b ∈ batches, b ≠ [] ∧ b.length ≤ bs) ∧
      loadGenesLoop f fuel bs stream store =
        some (batches.foldl (fun acc b => load_genes_by_batch f b acc) store) := by
  intro fuel
  induction fuel with
  | zero => intro stream h; omega
  | succ n ih =>
      intro stream h store
      by_cases he : (stream.take bs).isEmpty
      · have hnil : stream = [] := by
          rcases List.take_eq_nil_iff.mp (List.isEmpty_iff.mp he) with h0 | h0
          · omega
          · exact h0
        subst hnil
        exact ⟨[], rfl, by simp, by simp [loadGenesLoop]⟩
      · have hne : stream ≠ [] := by
          intro hnil; subst hnil; simp at he
        have hpos : 1 ≤ stream.length := List.length_pos.mpr hne
        have hlen : (stream.drop bs).length < n := by
          rw [List.length_drop]; omega
        obtain ⟨batches, hflat, hsz, hloop⟩ :=
          ih (stream.drop bs) hlen (load_genes_by_batch f (stream.take bs) store)
        refine ⟨stream.take bs :: batches, ?_, ?_, ?_⟩
        · simp [hflat]
        · intro b hb
          rcases List.mem_cons.mp hb with hb | hb
          · subst hb
            exact ⟨fun hc => he (List.isEmpty_iff.mpr hc), List.length_take_le bs stream⟩
          · exact hsz b hb
        · rw [List.foldl_cons]
          rw [← hloop]
          simp only [loadGenesLoop, he, Bool.false_eq_true, not_false_eq_true, if_neg]

/-- C5 (amended): for every input stream and every `batch_size ≥ 1`,
`load_genes` first deletes all Gene rows owned by this factory, then
inserts the stream's records in consecutive non-empty batches of at most
`batch_size` in stream order, each batch appended as one group; the
resulting store is the old store minus this factory's rows followed by the
whole stream, so an empty input leaves zero Gene rows for the factory.
(With `batch_size = 0` the loop instead breaks immediately after the
delete — `c5_counterexample`.) -/
theorem c5_load_genes_replace (f : String) (bs : Nat) (hbs : 1 ≤ bs)
    (stream : List GeneModel) (store : List GeneRow) :
    (∃ batches : List (List GeneModel),
      batches.flatten = stream ∧
      (∀ b ∈ batches, b ≠ [] ∧ b.length ≤ bs) ∧
      load_genes f bs stream store =
        some (batches.foldl (fun acc b => load_genes_by_batch f b acc)
          (store.filter (fun g => g.factory != f)))) ∧
    load_genes f bs stream store =
      some (store.filter (fun g => g.factory != f) ++ stream.map (geneRowOf f)) ∧
    (∀ g ∈ store.filter (fun g => g.factory != f), g.factory ≠ f) := by
  obtain ⟨batches, hflat, hsz, hloop⟩ := loadGenesLoop_batches f bs hbs
    (stream.length + 1) stream (by omega) (store.filter (fun g => g.factory != f))
  refine ⟨⟨batches, hflat, hsz, hloop⟩, ?_, ?_⟩
  · have hlg : load_genes f bs stream store =
        some (batches.foldl (fun acc b => load_genes_by_batch f b acc)
          (store.filter (fun g => g.factory != f))) := hloop
    rw [hlg, foldl_load_genes_by_batch, hflat]
  · intro g hg
    have := List.of_mem_filter hg
    simpa using this

/-- Witness for C5 (amended) at a concrete input: batch size 2, three
records, a store with one row of this factory and one of another; and the
empty-input case leaving zero rows for the factory. -/
theorem c5_load_genes_replace_witness :
    1 ≤ 2 ∧
    load_genes "gc1" 2
        [⟨"A", "A", "t", [], ⟨"1", 1, 2, []⟩⟩,
         ⟨"B", "B", "t", [], ⟨"1", 3, 4, []⟩⟩,
         ⟨"C", "C", "t", [], ⟨"2", 5, 6, []⟩⟩]
        [demoConstraintGene, ⟨"other", "X", "X", "t", ⟨"3", 7, 8, []⟩⟩] =
      some (([demoConstraintGene,
          ⟨"other", "X", "X", "t", ⟨"3", 7, 8, []⟩⟩] :
            List GeneRow).filter (fun g => g.factory != "gc1") ++
        ([⟨"A", "A", "t", [], ⟨"1", 1, 2, []⟩⟩,
          ⟨"B", "B", "t", [], ⟨"1", 3, 4, []⟩⟩,
          ⟨"C", "C", "t", [], ⟨"2", 5, 6, []⟩⟩] :
            List GeneModel).map (geneRowOf "gc1")) ∧
    load_genes "gc1" 2 []
        [demoConstraintGene, ⟨"other", "X", "X", "t", ⟨"3", 7, 8, []⟩⟩] =
      some [⟨"other", "X", "X", "t", ⟨"3", 7, 8, []⟩⟩] :=
  ⟨by decide,
    (c5_load_genes_replace "gc1" 2 (by decide)
      [⟨"A", "A", "t", [], ⟨"1", 1, 2, []⟩⟩,
       ⟨"B", "B", "t", [], ⟨"1", 3, 4, []⟩⟩,
       ⟨"C", "C", "t", [], ⟨"2", 5, 6, []⟩⟩]
      [demoConstraintGene, ⟨"other", "X", "X", "t", ⟨"3", 7, 8, []⟩⟩]).2.1,
    by
      have h := (c5_load_genes_replace "gc1" 2 (by decide) []
        [demoConstraintGene, ⟨"other", "X", "X", "t", ⟨"3", 7, 8, []⟩⟩]).2.1
      simpa using h⟩

/-! ## TSV reader (`reader_gnomad_constraint.py`) -/

/-- One raw row as the tab-separated `DictReader` yields it: the columns
`gene_reader` reads by name, plus the remaining columns, opaque. -/
structure RawRow where
  gene : String
  gene_type : String
  start_position : String
  end_position : String
  rest : List (String × String)
deriving DecidableEq, Repr

/-- `gene_reader(gnomad_stream)`. For each row it first builds
`model_args`, whose `attributes` entry calls
`GnomadConstraintAttributesModel(**row)` **outside** the `try`, and then
runs `try: yield GnomadConstraintGeneModel(**model_args), None except
ValidationError as e: yield None, e`. The two pydantic validators are
external collaborators (`diagho_toolkit.models`), passed as parameters:
`attrParse` for the attributes model, `geneParse` for the gene model over
the row and its validated attributes. The result pairs the items the
generator yielded with `some e` when an uncaught `ValidationError` from
the attributes model escaped at some row — the items after that row are
never produced. -/
def gene_reader (attrParse : RawRow → Except String GeneMeta)
    (geneParse : RawRow → GeneMeta → Except String GeneModel) :
    List RawRow → List (GeneModel ⊕ String) × Option String
  | [] => ([], none)
  | row :: rows =>
      match attrParse row with
      | .error e => ([], some e)
      | .ok attrs =>
          match geneParse row attrs with
          | .ok g => (.inl g :: (gene_reader attrParse geneParse rows).1,
              (gene_reader attrParse geneParse rows).2)
          | .error e => (.inr e :: (gene_reader attrParse geneParse rows).1,
              (gene_reader attrParse geneParse rows).2)

/-- `get_genes(gnomad_filename)`: iterate `gene_reader`, `logger.error` the
yielded errors and yield only the gene models; an exception escaping
`gene_reader` propagates (the second component). -/
def get_genes (attrParse : RawRow → Except String GeneMeta)
    (geneParse : RawRow → GeneMeta → Except String GeneModel)
    (rows : List RawRow) : List GeneModel × Option String :=
  ((gene_reader attrParse geneParse rows).1.filterMap (fun item =>
    match item with
    | .inl g => some g
    | .inr _ => none), (gene_reader attrParse geneParse rows).2)

def digitVal (c : Char) : Option Nat :=
  if c = '0' then some 0 else if c = '1' then some 1 else if c = '2' then some 2
  else if c = '3' then some 3 else if c = '4' then some 4 else if c = '5' then some 5
  else if c = '6' then some 6 else if c = '7' then some 7 else if c = '8' then some 8
  else if c = '9' then some 9 else none

def parseDigitsAux : List Char → Nat → Option Nat
  | [], acc => some acc
  | c :: cs, acc =>
      match digitVal c with
      | some d => parseDigitsAux cs (acc * 10 + d)
      | none => none

/-- Decimal parser standing in for pydantic's int coercion of a column. -/
def parseDecimal (s : String) : Option Int :=
  match s.toList with
  | [] => none
  | cs => (parseDigitsAux cs 0).map Int.ofNat

/-- A concrete stand-in for `GnomadConstraintAttributesModel`: the two
coordinate columns must parse as integers — a malformed numeric field (the
spec's own example of a structural validation failure) is a
`ValidationError`. -/
def demoAttrParse (row : RawRow) : Except String GeneMeta :=
  match parseDecimal row.start_position, parseDecimal row.end_position with
  | some s, some e => .ok ⟨"1", s, e, []⟩
  | _, _ => .error "value is not a valid integer"

/-- A concrete stand-in for `GnomadConstraintGeneModel` over `model_args`:
an empty gene symbol is a `ValidationError` (raised inside the `try`),
otherwise the model is built with the aliases `gene_reader` assembles. -/
def demoGeneParse (row : RawRow) (attrs : GeneMeta) : Except String GeneModel :=
  if row.gene = "" then .error "field required"
  else .ok ⟨row.gene, row.gene, row.gene_type,
    [row.gene, row.gene_type, row.start_position ++ "-" ++ row.end_position], attrs⟩

/-- C7 counterexample: a first row whose numeric field fails the
attributes model — validated outside the `try` — aborts the whole
generator: the second row, although fully valid, is never yielded, so
`get_genes` does not return the stream's valid gene models and the work
unit's remaining records are not processed. -/
theorem c7_counterexample :
    demoAttrParse ⟨"G2", "pc", "10", "20", []⟩ = .ok ⟨"1", 10, 20, []⟩ ∧
    demoGeneParse ⟨"G2", "pc", "10", "20", []⟩ ⟨"1", 10, 20, []⟩ =
      .ok ⟨"G2", "G2", "pc", ["G2", "pc", "10-20"], ⟨"1", 10, 20, []⟩⟩ ∧
    get_genes demoAttrParse demoGeneParse
        [⟨"G1", "pc", "abc", "200", []⟩, ⟨"G2", "pc", "10", "20", []⟩] =
      ([], some "value is not a valid integer") ∧
    ([] : List GeneModel) ≠
      [⟨"G2", "G2", "pc", ["G2", "pc", "10-20"], ⟨"1", 10, 20, []⟩⟩] := by
  refine ⟨by rfl, by rfl, by rfl, by decide⟩

/-- C7 (amended): when every row passes the attributes model, the
generator never aborts: a record failing validation in the gene-model
construction (the only step inside the `try`) is yielded as an error —
logged and skipped by `get_genes` — and does not affect the remaining
records, and `get_genes` returns exactly the stream's gene-model-valid
records in stream order, omitting each invalid row. -/
theorem c7_skip_invalid (attrParse : RawRow → Except String GeneMeta)
    (geneParse : RawRow → GeneMeta → Except String GeneModel)
    (rows : List RawRow)
    (hattr : ∀ row ∈ rows, ∃ a, attrParse row = .ok a) :
    (gene_reader attrParse geneParse rows).2 = none ∧
    get_genes attrParse geneParse rows =
      (rows.filterMap (fun row =>
        match attrParse row with
        | .error _ => none
        | .ok a =>
            match geneParse row a with
            | .ok g => some g
            | .error _ => none), none) := by
  induction rows with
  | nil => exact ⟨rfl, rfl⟩
  | cons row rows ih =>
      obtain ⟨a, ha⟩ := hattr row (List.mem_cons_self row rows)
      obtain ⟨ih1, ih2⟩ := ih (fun r hr => hattr r (List.mem_cons_of_mem row hr))
      have hg2 : (gene_reader attrParse geneParse rows).1.filterMap (fun item =>
          match item with
          | .inl g => some g
          | .inr _ => none) =
          rows.filterMap (fun row =>
            match attrParse row with
            | .error _ => none
            | .ok a =>
                match geneParse row a with
                | .ok g => some g
                | .error _ => none) := congrArg Prod.fst ih2
      constructor
      · cases hgp : geneParse row a with
        | ok g => simp only [gene_reader, ha, hgp]; exact ih1
        | error e => simp only [gene_reader, ha, hgp]; exact ih1
      · cases hgp : geneParse row a with
        | ok g =>
            simp only [get_genes, gene_reader, ha, hgp, List.filterMap_cons]
            rw [hg2, ih1]
        | error e =>
            simp only [get_genes, gene_reader, ha, hgp, List.filterMap_cons]
            rw [hg2, ih1]

/-- Witness for C7 (amended) at a concrete input: three rows all passing
the attributes model, the middle one rejected by the gene model — it is
skipped, the rows around it are yielded in order, and the reader does not
abort. -/
theorem c7_skip_invalid_witness :
    (∀ row ∈ ([⟨"G1", "pc", "1", "2", []⟩, ⟨"", "pc", "3", "4", []⟩,
        ⟨"G3", "pc", "5", "6", []⟩] : List RawRow),
      ∃ a, demoAttrParse row = .ok a) ∧
    (gene_reader demoAttrParse demoGeneParse
      [⟨"G1", "pc", "1", "2", []⟩, ⟨"", "pc", "3", "4", []⟩,
       ⟨"G3", "pc", "5", "6", []⟩]).2 = none ∧
    get_genes demoAttrParse demoGeneParse
        [⟨"G1", "pc", "1", "2", []⟩, ⟨"", "pc", "3", "4", []⟩,
         ⟨"G3", "pc", "5", "6", []⟩] =
      (([⟨"G1", "pc", "1", "2", []⟩, ⟨"", "pc", "3", "4", []⟩,
        ⟨"G3", "pc", "5", "6", []⟩] : List RawRow).filterMap (fun row =>
          match demoAttrParse row with
          | .error _ => none
          | .ok a =>
              match demoGeneParse row a with
              | .ok g => some g
              | .error _ => none), none) := by
  have hattr : ∀ row ∈ ([⟨"G1", "pc", "1", "2", []⟩, ⟨"", "pc", "3", "4", []⟩,
      ⟨"G3", "pc", "5", "6", []⟩] : List RawRow),
      ∃ a, demoAttrParse row = .ok a := by
    intro row hrow
    fin_cases hrow
    · exact ⟨⟨"1", 1, 2, []⟩, by rfl⟩
    · exact ⟨⟨"1", 3, 4, []⟩, by rfl⟩
    · exact ⟨⟨"1", 5, 6, []⟩, by rfl⟩
  obtain ⟨h1, h2⟩ := c7_skip_invalid demoAttrParse demoGeneParse
    [⟨"G1", "pc", "1", "2", []⟩, ⟨"", "pc", "3", "4", []⟩,
     ⟨"G3", "pc", "5", "6", []⟩] hattr
  exact ⟨hattr, h1, h2⟩

/-! ## Schema export (`get_schema`) -/

/-- `ClinvarFactory.get_schema`:
`{str(self.pk): {"variant_annotations": ClinvarInfosModel.schema()}}`;
the pydantic `.schema()` document is opaque, passed in. -/
def clinvar_get_schema (pk : String) (infosSchema : Json) : List (String × Json) :=
  [(pk, .obj [("variant_annotations", infosSchema)])]

/-- `GnomadFactory.get_schema`:
`{str(self.pk): {"genes": GnomadInfosModel.schema()}}`. -/
def gnomad_get_schema (pk : String) (infosSchema : Json) : List (String × Json) :=
  [(pk, .obj [("genes", infosSchema)])]

/-- `GnomadConstraintFactory.get_schema`:
`{str(self.pk): {"genes": GnomadConstraintGeneModel.schema()}}`. -/
def constraint_get_schema (pk : String) (geneSchema : Json) : List (String × Json) :=
  [(pk, .obj [("genes", geneSchema)])]

/-- The top-level keys of a JSON object (and `[]` for non-objects). -/
def contributionKeys (o : Json) : List String :=
  match o with
  | .obj fields => fields.map Prod.fst
  | _ => []

/-- The contribution keys a schema advertises under one source id. -/
def schemaKeys (schema : List (String × Json)) (pk : String) : List String :=
  match getKey schema pk with
  | some o => contributionKeys o
  | none => []

/-- The contribution stored under `factories[pk]` of a node document. -/
def writtenContribution (doc : List (String × Json)) (pk : String) : Json :=
  match getKey doc "factories" with
  | some (.obj fs) => (getKey fs pk).getD (.obj [])
  | _ => .obj []

/-- C8: for `GnomadFactory` the advertised and the written contribution
keys differ — `get_schema` advertises `"genes"` under the source id while
`init_metadata` (via `initDoc`) and `merge_metadata` (via
`clinvarContribution`, the same body) write `"variant_annotations"`;
for `ClinvarFactory` and `GnomadConstraintFactory` the two agree. -/
theorem c8_gnomad_schema_key_mismatch :
    schemaKeys (gnomad_get_schema "7" (.obj [])) "7" = ["genes"] ∧
    contributionKeys (writtenContribution (initDoc "7" []) "7") =
      ["variant_annotations"] ∧
    contributionKeys (clinvarContribution []) = ["variant_annotations"] ∧
    (["genes"] : List String) ≠ ["variant_annotations"] ∧
    schemaKeys (clinvar_get_schema "3" (.obj [])) "3" = ["variant_annotations"] ∧
    contributionKeys (writtenContribution (initDoc "3" []) "3") =
      ["variant_annotations"] ∧
    schemaKeys (constraint_get_schema "9" (.obj [])) "9" = ["genes"] ∧
    contributionKeys (constraintContribution "gc1" ⟨["1"], 1, "A"⟩ []) = ["genes"] := by
  refine ⟨by rfl, by rfl, by rfl, by decide, by rfl, by rfl, by rfl, by rfl⟩

/-! ## Pipeline orchestration (`load()`)

`ClinvarFactory.load` / `GnomadFactory.load` build the celery chain
`factory_set_loading_started.si(pk) → factory_run.si(pk, "load_regions")
→ factory_run.si(pk, "load_variants") → factory_set_loading_success.si(pk)`.
Celery chain semantics: each link starts when the previous link's task
returns. `load_variants` enqueues one `factory_run.delay(pk,
"load_variants_for_region", region)` per contig — `delay` is
fire-and-forget, the enqueued tasks are not links of the chain and nothing
in the chain references them. The `core.tasks` helpers are repository code
that is not under `src/`; they are modelled from the spec's state machine
(§4.4). -/

/-- `Factory` lifecycle states (spec §4.4: NOT_STARTED → LOADING →
LOADED / FAILED). -/
inductive FactoryState where
  | notStarted
  | loading
  | loaded
  | failed
deriving DecidableEq, Repr

/-- The scheduler-visible state while `load()`'s chain executes: the
source's lifecycle state, the per-region load tasks enqueued by `.delay`
and not yet executed, and the regions whose load has completed. -/
structure PipelineState where
  fstate : FactoryState
  pendingRegionLoads : List String
  completedRegionLoads : List String
deriving DecidableEq, Repr

/-- Modelled from the spec: `core.tasks.factory_set_loading_started`
(repository code not under `src/`) — transition the source to LOADING
before the first stage. -/
def factory_set_loading_started (s : PipelineState) : PipelineState :=
  { s with fstate := .loading }

/-- Modelled from the spec: `core.tasks.factory_set_loading_success`
(repository code not under `src/`) — transition the source to LOADED. The
task itself performs no join: it runs as the next chain link as soon as
the previous link returns. -/
def factory_set_loading_success (s : PipelineState) : PipelineState :=
  { s with fstate := .loaded }

/-- `load_variants` (under `src/`): for each contig of the file, enqueue
one asynchronous `factory_run.delay(pk, "load_variants_for_region",
{"region": region})` work unit, then return — nothing waits for the
enqueued tasks. -/
def load_variants_dispatch (contigs : List String) (s : PipelineState) : PipelineState :=
  { s with pendingRegionLoads := s.pendingRegionLoads ++ contigs }

/-- The chain built and started by `load()`, executed link after link;
the `load_regions` link only writes Region rows (modelled separately by
`load_regions`) and does not touch the pipeline state. -/
def clinvar_load_chain (contigs : List String) (s : PipelineState) : PipelineState :=
  factory_set_loading_success
    (load_variants_dispatch contigs (factory_set_loading_started s))

/-- A pending region load that later exhausts its retries: the scheduler
drops the work unit. No code on this path writes the factory's state —
neither `load_variants_for_region` nor any `core.tasks` helper registers
a failure handler — so the lifecycle state keeps its current value. -/
def region_load_exhausts_retries (region : String) (s : PipelineState) : PipelineState :=
  { s with pendingRegionLoads := s.pendingRegionLoads.erase region }

/-- C3 evaluated at the failing input (a source with the single contig
"1"): the chain marks the source LOADED while the region-load work unit it
enqueued is still pending and before any region load completed —
`mark-loading-success` is chained after the *dispatch* stage, not after
the dispatched loads, so there is no join barrier — and when that pending
load later exhausts its retries the state remains LOADED, never FAILED. -/
theorem c3_no_join_barrier :
    (clinvar_load_chain ["1"] ⟨.notStarted, [], []⟩).fstate = .loaded ∧
    (clinvar_load_chain ["1"] ⟨.notStarted, [], []⟩).pendingRegionLoads = ["1"] ∧
    (clinvar_load_chain ["1"] ⟨.notStarted, [], []⟩).completedRegionLoads = [] ∧
    (region_load_exhausts_retries "1"
      (clinvar_load_chain ["1"] ⟨.notStarted, [], []⟩)).fstate = .loaded ∧
    FactoryState.loaded ≠ FactoryState.failed := by
  refine ⟨by rfl, by rfl, by rfl, by rfl, by decide⟩

end StageM1
